import Mathlib

/-!
# News agent: watch list, scheduler tick and upsert store

A shallow embedding of `main.go`: the watch list held behind `watchlistMux`, the two
fetchers (`fetchNews`, `fetchTwitter`), the store write (`saveToMongo`), one pass of the
`scheduler` loop and the two `/watchlist` handlers of `apiServer`.

What lies outside the program is kept outside the model and enters as data:

* the HTTP providers answer through `Env.http`, a function of the request;
* `time.Now()` reads `Env.now` at the number of readings made so far;
* request and response bodies are JSON trees (`Json`), or a syntax error;
* the MongoDB collection is a list of documents with an id counter, and
  `UpdateOne` with `upsert` is modelled on equality filters (`updateOne`).
-/

namespace NewsAgent

/-! ## JSON trees and Go values -/

/-- The JSON literals. Numbers are kept as integers: nothing below depends on the value
of a number, only on its being one. -/
inductive Scalar where
  | null
  | bool (b : Bool)
  | num (n : Int)
  | str (s : String)
  deriving DecidableEq, Repr

/-- A JSON document, as a tree. Object members keep their order of appearance and may
repeat a key, as in a JSON text. -/
inductive Json where
  | lit (a : Scalar)
  | arr (xs : List Json)
  | obj (kvs : List (String × Json))

mutual
/-- Equality of JSON trees is decidable. -/
def Json.decEq : (a b : Json) → Decidable (a = b)
  | .lit a, .lit b =>
    if h : a = b then isTrue (by rw [h]) else isFalse (by intro e; cases e; exact h rfl)
  | .arr a, .arr b =>
    match Json.decEqList a b with
    | isTrue h => isTrue (by rw [h])
    | isFalse h => isFalse (by intro e; cases e; exact h rfl)
  | .obj a, .obj b =>
    match Json.decEqMembers a b with
    | isTrue h => isTrue (by rw [h])
    | isFalse h => isFalse (by intro e; cases e; exact h rfl)
  | .lit _, .arr _ => isFalse (by intro e; cases e)
  | .lit _, .obj _ => isFalse (by intro e; cases e)
  | .arr _, .lit _ => isFalse (by intro e; cases e)
  | .arr _, .obj _ => isFalse (by intro e; cases e)
  | .obj _, .lit _ => isFalse (by intro e; cases e)
  | .obj _, .arr _ => isFalse (by intro e; cases e)
/-- Equality of lists of JSON trees. -/
def Json.decEqList : (as bs : List Json) → Decidable (as = bs)
  | [], [] => isTrue rfl
  | [], _ :: _ => isFalse (by intro e; cases e)
  | _ :: _, [] => isFalse (by intro e; cases e)
  | a :: as, b :: bs =>
    match Json.decEq a b, Json.decEqList as bs with
    | isTrue h1, isTrue h2 => isTrue (by rw [h1, h2])
    | isFalse h1, _ => isFalse (by intro e; cases e; exact h1 rfl)
    | _, isFalse h2 => isFalse (by intro e; cases e; exact h2 rfl)
/-- Equality of member lists of JSON objects. -/
def Json.decEqMembers : (as bs : List (String × Json)) → Decidable (as = bs)
  | [], [] => isTrue rfl
  | [], _ :: _ => isFalse (by intro e; cases e)
  | _ :: _, [] => isFalse (by intro e; cases e)
  | (k1, a) :: as, (k2, b) :: bs =>
    if hk : k1 = k2 then
      match Json.decEq a b, Json.decEqMembers as bs with
      | isTrue h1, isTrue h2 => isTrue (by rw [hk, h1, h2])
      | isFalse h1, _ => isFalse (by intro e; cases e; exact h1 rfl)
      | _, isFalse h2 => isFalse (by intro e; cases e; exact h2 rfl)
    else isFalse (by intro e; cases e; exact hk rfl)
end

instance : DecidableEq Json := Json.decEq

/-- A JSON string. -/
@[match_pattern] abbrev Json.str (s : String) : Json := .lit (.str s)

/-- The JSON `null`. -/
@[match_pattern] abbrev Json.null : Json := .lit .null

/-- A value held in a `map[string]interface{}` or in a stored document: what
`encoding/json` decoded (a JSON tree), a `time.Time` (an instant, as a number), or an
`ObjectId` assigned by the store. -/
inductive Value where
  | json (j : Json)
  | time (t : Nat)
  | oid (n : Nat)
  deriving DecidableEq

/-- The Go `nil` interface value, which is also what a JSON `null` decodes to. -/
abbrev Value.nil : Value := .json .null

/-- A Go string held in an `interface{}`. -/
abbrev Value.str (s : String) : Value := .json (.str s)

/-- A non-nil `map[string]interface{}`, and likewise a stored document: a finite map
from field names to values, given by its lookup. `none` means the key is absent. -/
abbrev Item := String → Option Value

/-- The empty map. -/
def Item.empty : Item := fun _ => none

/-- The assignment `m[k] = v`. -/
def Item.put (m : Item) (k : String) (v : Value) : Item :=
  fun k' => if k' = k then some v else m k'

/-- The expression `m[k]` of type `interface{}`: `nil` when the key is absent. -/
def Item.index (m : Item) (k : String) : Value :=
  (m k).getD Value.nil

/-! ## The store -/

/-- The `raw_articles` collection: its documents in natural order, and the counter from
which the server draws the `_id` of an inserted document. -/
structure Store where
  docs : List Item
  nextId : Nat

/-- The empty collection. -/
def Store.empty : Store := ⟨[], 0⟩

/-- The equality filter `{"url": fv}` of MongoDB on a document: the field equals `fv`,
or is an array holding `fv`; a `null` filter value also matches a document without the
field. -/
def matchesUrl (fv : Value) (d : Item) : Bool :=
  match d "url" with
  | none => decide (fv = Value.nil)
  | some v =>
    decide (v = fv) ||
      (match v, fv with
       | .json (.arr xs), .json j => decide (j ∈ xs)
       | _, _ => false)

/-- The update `{"$set": item}` applied to a document: every field of `item` is written,
every other field of the document stays. -/
def setFields (item : Item) (doc : Item) : Item :=
  fun k => match item k with
    | some v => some v
    | none => doc k

/-- The update applied to a matched document. `_id` is immutable: an `item` carrying a
different `_id` makes the write fail, and the document stays as it was. -/
def applySet (item : Item) (doc : Item) : Item :=
  if item "_id" = none ∨ item "_id" = doc "_id" then setFields item doc else doc

/-- Rewrites the first document satisfying `p`, as `UpdateOne` does. -/
def updateFirst (p : Item → Bool) (f : Item → Item) : List Item → List Item
  | [] => []
  | d :: ds => if p d then f d :: ds else d :: updateFirst p f ds

/-- The document an upsert inserts when nothing matches: the filter's field, a fresh
`_id`, and on top of them the fields of `item`. -/
def upsertDoc (fv : Value) (item : Item) (nextId : Nat) : Item :=
  setFields item (Item.put (Item.put Item.empty "_id" (.oid nextId)) "url" fv)

/-- The call `collection.UpdateOne(ctx, {"url": fv}, {"$set": item}, upsert)`, with
field names taken as plain names and `fv` compared by equality (query operators and
dotted paths are outside the model). The first matching document is updated; when none
matches, a document is inserted, unless its `_id` is already taken (a duplicate key
error). A failed write leaves the collection as it was. -/
def updateOne (fv : Value) (item : Item) (s : Store) : Store :=
  if s.docs.any (matchesUrl fv) then
    { s with docs := updateFirst (matchesUrl fv) (applySet item) s.docs }
  else
    let doc := upsertDoc fv item s.nextId
    if s.docs.any (fun d => decide (d "_id" = doc "_id")) then s
    else { docs := s.docs ++ [doc], nextId := s.nextId + 1 }

/-- The function `saveToMongo`: an upsert filtered on the item's `url`; the result of
the write is discarded. -/
def saveToMongo (item : Item) (s : Store) : Store :=
  updateOne (item.index "url") item s

/-! ## The world outside the process -/

/-- An HTTP request as the fetchers build it with `client.R()`. -/
structure Request where
  url : String
  query : List (String × String)
  headers : List (String × String)
  deriving DecidableEq, Repr

/-- What `Get` hands back: an error, or a response. Of a response only the body is read;
`none` is a body that is not a JSON text. -/
inductive Response where
  | failed (err : String)
  | body (doc : Option Json)

/-- Everything the process reads from outside: its configuration, the providers, the
clock, and how `fmt` prints a value with the verb v where that is not spelled out in
`sprintV`. -/
structure Env where
  newsAPIKey : String
  twitterBearer : String
  http : Request → Response
  now : Nat → Nat
  format : Value → String

/-- The state one scheduler pass works on: the collection, the trace of the items passed
to `saveToMongo`, the trace of the requests sent, the log, and the number of readings of
the clock so far. -/
structure State where
  store : Store
  saved : List Item
  requests : List Request
  logs : List String
  clock : Nat

/-- A run either comes to its end or stops in a Go panic, which ends the process. -/
inductive Run where
  | done (st : State)
  | panic (st : State)

/-- The state a run stops in. -/
def Run.state : Run → State
  | .done st => st
  | .panic st => st

/-- Whether the run stopped in a panic. -/
def Run.panicked : Run → Bool
  | .done _ => false
  | .panic _ => true

/-- Sequencing: after a panic nothing more runs. -/
def Run.bind (r : Run) (f : State → Run) : Run :=
  match r with
  | .done st => f st
  | .panic st => .panic st

/-- The loop `for _, x := range xs { body }`. -/
def forEach {α : Type} (body : α → State → Run) : List α → State → Run
  | [], st => .done st
  | x :: xs, st => (body x st).bind (forEach body xs)

/-- A call of `saveToMongo` inside a run: the write, and the call recorded. -/
def State.save (item : Item) (st : State) : State :=
  { st with store := saveToMongo item st.store, saved := st.saved ++ [item] }

/-! ## Decoding a provider response -/

/-- A JSON object decoded into a `map[string]interface{}`: members are written in
order, so a repeated key keeps its last value. -/
def decodeObject (kvs : List (String × Json)) : Item :=
  kvs.foldl (fun m kv => m.put kv.1 (.json kv.2)) Item.empty

/-- One element of a `[]map[string]interface{}`: an object gives a map, anything else
(`null`, or a value of another kind, which is a type error that `Unmarshal` steps over)
leaves the element the nil map, here `none`. -/
def decodeElem : Json → Option Item
  | .obj kvs => some (decodeObject kvs)
  | _ => none

/-- The value of a member of the envelope, decoded as `[]map[string]interface{}`; what
is not an array gives a nil slice, which a `range` loop reads as empty. -/
def decodeEntry : Json → List (Option Item)
  | .arr xs => xs.map decodeElem
  | _ => []

/-- The last member of an object with the given key. -/
def lastMember (kvs : List (String × Json)) (key : String) : Option Json :=
  ((kvs.filter (fun kv => decide (kv.1 = key))).getLast?).map Prod.snd

/-- The expression `result[key]` after `json.Unmarshal(resp.Body(), &result)` with
`result` of type `map[string][]map[string]interface{}`; the error of `Unmarshal` is
dropped by the source. A body that is not a JSON object leaves `result` nil. -/
def resultList (body : Option Json) (key : String) : List (Option Item) :=
  match body with
  | some (.obj kvs) =>
    (match lastMember kvs key with
     | some j => decodeEntry j
     | none => [])
  | _ => []

/-! ## The fetchers -/

/-- The request of `fetchNews`. -/
def newsRequest (env : Env) (keyword : String) : Request :=
  { url := "https://newsapi.org/v2/everything",
    query := [("q", keyword), ("language", "en"), ("sortBy", "publishedAt"),
      ("pageSize", "10"), ("apiKey", env.newsAPIKey)],
    headers := [("Accept", "application/json")] }

/-- The request of `fetchTwitter`. -/
def twitterRequest (env : Env) (keyword : String) : Request :=
  { url := "https://api.twitter.com/2/tweets/search/recent",
    query := [("query", keyword), ("max_results", "10"),
      ("tweet.fields", "author_id,created_at")],
    headers := [("Authorization", "Bearer " ++ env.twitterBearer)] }

/-- The verb v of `fmt` on a value: a string prints as itself, `nil` as `<nil>`, a
boolean as `true` or `false`; numbers, arrays, maps and times are left to `Env.format`. -/
def sprintV (env : Env) (v : Value) : String :=
  match v with
  | .json (.lit .null) => "<nil>"
  | .json (.lit (.str s)) => s
  | .json (.lit (.bool b)) => toString b
  | v => env.format v

/-- The item `fetchNews` passes to `saveToMongo` for an article, stamped with the
time `t`. -/
def newsItem (article : Item) (t : Nat) : Item :=
  (article.put "source_type" (Value.str "newsapi")).put "fetched_at" (.time t)

/-- The item `fetchTwitter` passes to `saveToMongo` for a tweet, stamped with the
time `t`. -/
def twitterItem (env : Env) (tweet : Item) (t : Nat) : Item :=
  let tweet := (tweet.put "source_type" (Value.str "twitter")).put "fetched_at" (.time t)
  tweet.put "url"
    (Value.str ("https://twitter.com/i/web/status/" ++ sprintV env (tweet.index "id")))

/-- The body of the loop of `fetchNews`. Writing into a nil map panics. -/
def storeArticle (env : Env) (article : Option Item) (st : State) : Run :=
  match article with
  | none => .panic st
  | some m =>
    .done (State.save (newsItem m (env.now st.clock)) { st with clock := st.clock + 1 })

/-- The body of the loop of `fetchTwitter`. Writing into a nil map panics. -/
def storeTweet (env : Env) (tweet : Option Item) (st : State) : Run :=
  match tweet with
  | none => .panic st
  | some m =>
    .done (State.save (twitterItem env m (env.now st.clock))
      { st with clock := st.clock + 1 })

/-- The function `fetchNews`. -/
def fetchNews (env : Env) (keyword : String) (st : State) : Run :=
  let st := { st with requests := st.requests ++ [newsRequest env keyword] }
  match env.http (newsRequest env keyword) with
  | .failed err => .done { st with logs := st.logs ++ ["NewsAPI error: " ++ err] }
  | .body doc => forEach (storeArticle env) (resultList doc "articles") st

/-- The function `fetchTwitter`. -/
def fetchTwitter (env : Env) (keyword : String) (st : State) : Run :=
  let st := { st with requests := st.requests ++ [twitterRequest env keyword] }
  match env.http (twitterRequest env keyword) with
  | .failed err => .done { st with logs := st.logs ++ ["Twitter error: " ++ err] }
  | .body doc => forEach (storeTweet env) (resultList doc "data") st

/-! ## The watch list and the scheduler -/

/-- A Go slice: the nil slice is `none`; a non-nil slice is given by its elements. -/
abbrev Slice (α : Type) := Option (List α)

/-- The elements of a slice, which is what `range`, `len` and `copy` see of it. -/
def Slice.elems {α : Type} : Slice α → List α
  | none => []
  | some xs => xs

/-- The struct `WatchItem`, fields named as in its JSON tags. -/
structure WatchItem where
  type : String
  keywords : Slice String
  users : Slice String
  deriving DecidableEq, Repr

/-- The critical section of the scheduler: `localList` is a slice made anew, of the
length of `watchlist`, into which the elements are copied. -/
def snapshot (watchlist : Slice WatchItem) : List WatchItem :=
  watchlist.elems

/-- The body of the loop over `localList`: dispatch on the type of the item. -/
def processItem (env : Env) (item : WatchItem) (st : State) : Run :=
  if item.type = "newsapi" then
    forEach (fetchNews env) item.keywords.elems st
  else if item.type = "twitter" then
    forEach (fetchTwitter env) item.keywords.elems st
  else .done st

/-- The loop over `localList` in `scheduler`. -/
def processList (env : Env) (localList : List WatchItem) (st : State) : Run :=
  forEach (processItem env) localList st

/-- One pass of the loop of `scheduler`, up to the sleep: snapshot, then the sweep. -/
def schedulerTick (env : Env) (watchlist : Slice WatchItem) (st : State) : Run :=
  processList env (snapshot watchlist) st

/-- The two variables the critical sections touch: the shared `watchlist` and the
`localList` of the scheduler. -/
structure Registry where
  watchlist : Slice WatchItem
  localList : List WatchItem

/-- A critical section taken under `watchlistMux`: the assignment of the POST handler,
or the copy of the scheduler. The mutex makes each of them one step. -/
inductive Step where
  | replace (newList : Slice WatchItem)
  | snapshot

/-- The effect of one critical section. -/
def Registry.step (r : Registry) : Step → Registry
  | .replace newList => { r with watchlist := newList }
  | .snapshot => { r with localList := snapshot r.watchlist }

/-- The effect of a sequence of critical sections, in the order the mutex grants them. -/
def Registry.run (r : Registry) (steps : List Step) : Registry :=
  steps.foldl Registry.step r

/-- The registry as `main` leaves it before the scheduler starts: an empty, non-nil
watch list. -/
def Registry.init : Registry := ⟨some [], []⟩

/-- The argument of a `replace` step. -/
def Step.replaced : Step → Option (Slice WatchItem)
  | .replace newList => some newList
  | .snapshot => none

/-- Whether a step is a `replace`. -/
def Step.isReplace : Step → Bool
  | .replace _ => true
  | .snapshot => false

/-- The argument of the most recent `replace` of a sequence of steps, or the initial
empty list when there is none. -/
def lastReplaced (steps : List Step) : Slice WatchItem :=
  ((steps.filterMap Step.replaced).getLast?).getD (some [])

/-! ## The reference reading of a tick -/

/-- The payloads the fetcher for a source type yields for a keyword: the elements of the
list in the provider's answer; none when the request fails, none for a type without a
fetcher. -/
def fetched (env : Env) (sourceType keyword : String) : List (Option Item) :=
  if sourceType = "newsapi" then
    (match env.http (newsRequest env keyword) with
     | .failed _ => []
     | .body doc => resultList doc "articles")
  else if sourceType = "twitter" then
    (match env.http (twitterRequest env keyword) with
     | .failed _ => []
     | .body doc => resultList doc "data")
  else []

/-- The payloads of a whole tick, each with the source type of its subscription:
subscriptions in list order, keywords in listed order. -/
def tickPayloads (env : Env) (localList : List WatchItem) : List (String × Option Item) :=
  localList.flatMap (fun sub =>
    sub.keywords.elems.flatMap (fun kw =>
      (fetched env sub.type kw).map (fun p => (sub.type, p))))

/-- A payload tagged with its source type and stamped with the time `t`. -/
def tagged (env : Env) (sourceType : String) (payload : Item) (t : Nat) : Item :=
  if sourceType = "newsapi" then newsItem payload t else twitterItem env payload t

/-- The items a list of payloads gives, the first stamped at the reading number `clock`
and each later one at the next reading. An element that is not an object gives none. -/
def upsertsFrom (env : Env) : Nat → List (String × Option Item) → List Item
  | _, [] => []
  | clock, (ty, some p) :: rest =>
    tagged env ty p (env.now clock) :: upsertsFrom env (clock + 1) rest
  | clock, (_, none) :: rest => upsertsFrom env clock rest

/-! ## The watch list as JSON -/

/-- The name `encoding/json` gives the kind of a JSON value in a type error. -/
def Json.kind : Json → String
  | .lit .null => "null"
  | .lit (.bool _) => "bool"
  | .lit (.num _) => "number"
  | .lit (.str _) => "string"
  | .arr _ => "array"
  | .obj _ => "object"

/-- The text of an `UnmarshalTypeError` raised inside a field of `WatchItem`. -/
def fieldError (j : Json) (field goType : String) : String :=
  "json: cannot unmarshal " ++ j.kind ++ " into Go struct field WatchItem." ++ field ++
    " of type " ++ goType

/-- The text of an `UnmarshalTypeError` raised outside any struct field. -/
def valueError (j : Json) (goType : String) : String :=
  "json: cannot unmarshal " ++ j.kind ++ " into Go value of type " ++ goType

/-- Case folding of one character of an object key: ASCII letters to lower case, and the
two characters that fold to an ASCII letter, the Kelvin sign and the long s. -/
def foldChar (c : Char) : Char :=
  if c = Char.ofNat 0x212A then Char.ofNat 0x6B
  else if c = Char.ofNat 0x17F then Char.ofNat 0x73
  else c.toLower

/-- The fields of `WatchItem`. -/
inductive Field where
  | type
  | keywords
  | users
  deriving DecidableEq, Repr

/-- The field an object key is decoded into: the one whose JSON name the key equals,
or else equals up to case; no field for any other key. The three names are lower-case
and distinct, so both steps come to comparing the folded key. -/
def fieldOf (key : String) : Option Field :=
  let folded := key.data.map foldChar
  if folded = "type".data then some .type
  else if folded = "keywords".data then some .keywords
  else if folded = "users".data then some .users
  else none

/-- Runs a decoder over a list, stopping at the first error. -/
def decodeAll {α β : Type} (f : α → Except String β) : List α → Except String (List β)
  | [] => .ok []
  | x :: xs =>
    match f x with
    | .error e => .error e
    | .ok y =>
      match decodeAll f xs with
      | .error e => .error e
      | .ok ys => .ok (y :: ys)

/-- A JSON value decoded into a Go `string` holding `cur`: a string is stored, `null`
changes nothing, anything else is a type error. -/
def decodeString (field : String) (cur : String) : Json → Except String String
  | .lit (.str s) => .ok s
  | .lit .null => .ok cur
  | j => .error (fieldError j field "string")

/-- The elements of a JSON array decoded one by one into the strings of a backing array,
which reads as empty strings past its end: the element at each index is decoded into the
string already there, so a `null` keeps it. -/
def decodeInto (field : String) : List String → List Json → Except String (List String)
  | _, [] => .ok []
  | backing, x :: xs =>
    match decodeString field (backing.headD "") x with
    | .error e => .error e
    | .ok y =>
      match decodeInto field backing.tail xs with
      | .error e => .error e
      | .ok ys => .ok (y :: ys)

/-- A JSON value decoded into a `[]string` field that holds `cur`, with `spare` the
strings left in its backing array past its length by an earlier, longer occurrence of
the same key. `null` sets the nil slice and an empty array a new empty slice, both
without backing. Any other array is decoded in place, index by index, into the backing
array (grown with empty strings as needed); the slice is cut to the length of the array
and what lies past it stays as spare. Anything else is a type error. -/
def decodeStrings (field : String) (cur : Slice String) (spare : List String) :
    Json → Except String (Slice String × List String)
  | .lit .null => .ok (none, [])
  | .arr [] => .ok (some [], [])
  | .arr (x :: xs) =>
    (match decodeInto field (cur.elems ++ spare) (x :: xs) with
     | .error e => .error e
     | .ok ys => .ok (some ys, (cur.elems ++ spare).drop (x :: xs).length))
  | j => .error (fieldError j field "[]string")

/-- A `WatchItem` while it is being decoded: the struct, and for each slice field the
strings its backing array holds past its length. -/
structure Decoding where
  item : WatchItem
  spareKeywords : List String
  spareUsers : List String

/-- One member of a JSON object decoded into a `WatchItem`, into the value the field
holds at that point; a key that names no field is skipped. -/
def decodeMember (d : Decoding) (kv : String × Json) : Except String Decoding :=
  match fieldOf kv.1 with
  | some .type =>
    (match decodeString "type" d.item.type kv.2 with
     | .error e => .error e
     | .ok s => .ok { d with item := { d.item with type := s } })
  | some .keywords =>
    (match decodeStrings "keywords" d.item.keywords d.spareKeywords kv.2 with
     | .error e => .error e
     | .ok ks => .ok { d with item := { d.item with keywords := ks.1 }, spareKeywords := ks.2 })
  | some .users =>
    (match decodeStrings "users" d.item.users d.spareUsers kv.2 with
     | .error e => .error e
     | .ok us => .ok { d with item := { d.item with users := us.1 }, spareUsers := us.2 })
  | none => .ok d

/-- The members of an object decoded in order into a `WatchItem`. -/
def decodeMembers (d : Decoding) : List (String × Json) → Except String Decoding
  | [] => .ok d
  | kv :: kvs =>
    match decodeMember d kv with
    | .error e => .error e
    | .ok d' => decodeMembers d' kvs

/-- A JSON value decoded into a fresh `WatchItem`: an object member by member, `null`
leaves the zero value, anything else is a type error. -/
def decodeWatchItem : Json → Except String WatchItem
  | .obj kvs =>
    (match decodeMembers ⟨⟨"", none, none⟩, [], []⟩ kvs with
     | .error e => .error e
     | .ok d => .ok d.item)
  | .lit .null => .ok ⟨"", none, none⟩
  | j => .error (valueError j "main.WatchItem")

/-- A JSON value decoded into `newList`, a nil `[]WatchItem`: `null` leaves it nil, an
array gives a non-nil slice of its decoded elements, anything else is a type error. The
first error met is the one `Decode` returns. -/
def decodeWatchlist : Json → Except String (Slice WatchItem)
  | .lit .null => .ok none
  | .arr xs =>
    (match decodeAll decodeWatchItem xs with
     | .error e => .error e
     | .ok ws => .ok (some ws))
  | j => .error (valueError j "[]main.WatchItem")

/-- A `[]string` encoded: the nil slice as `null`, any other as an array of strings. -/
def encodeStrings : Slice String → Json
  | none => .lit .null
  | some xs => .arr (xs.map Json.str)

/-- A `WatchItem` encoded: `type`, `keywords`, and `users` unless it is empty
(`omitempty`). -/
def encodeWatchItem (w : WatchItem) : Json :=
  .obj ([("type", Json.str w.type), ("keywords", encodeStrings w.keywords)] ++
    (if w.users.elems.isEmpty then [] else [("users", encodeStrings w.users)]))

/-- The watch list encoded: the nil slice as `null`, any other as an array. -/
def encodeWatchlist : Slice WatchItem → Json
  | none => .lit .null
  | some ws => .arr (ws.map encodeWatchItem)

/-! ## The handlers -/

/-- What a handler writes: status, `Content-Type` when one is set, and the body, which
is a JSON document, a text, or nothing. -/
inductive ReplyBody where
  | none
  | text (s : String)
  | json (j : Json)
  deriving DecidableEq

/-- A reply of the server. -/
structure Reply where
  status : Nat
  contentType : Option String
  body : ReplyBody
  deriving DecidableEq

/-- The handler of `GET /watchlist`: the held list, encoded. -/
def getWatchlist (watchlist : Slice WatchItem) : Reply :=
  ⟨200, some "application/json", .json (encodeWatchlist watchlist)⟩

/-- What `Decode` makes of a request body: the body holds a JSON value, or reading one
fails with a syntax error (`.error`); the value is then decoded into `newList`. -/
def decodeBody (body : Except String Json) : Except String (Slice WatchItem) :=
  match body with
  | .error e => .error e
  | .ok j => decodeWatchlist j

/-- The handler of `POST /watchlist`: the reply, and the watch list it leaves. On an
error `http.Error` answers 400 with the message on a line. -/
def postWatchlist (body : Except String Json) (watchlist : Slice WatchItem) :
    Reply × Slice WatchItem :=
  match decodeBody body with
  | .error e => (⟨400, some "text/plain; charset=utf-8", .text (e ++ "\n")⟩, watchlist)
  | .ok newList => (⟨200, none, .none⟩, newList)

/-- A watch item as it is held after a round through JSON: an empty `users`, which the
encoder leaves out, comes back as the nil slice. Nothing else changes. -/
def WatchItem.dropEmptyUsers (w : WatchItem) : WatchItem :=
  { w with users := if w.users.elems.isEmpty then none else w.users }

/-! ## Predicates on runs -/

/-- A run that went through, made exactly the given saves in order, and read the clock
once for each. -/
def Run.Saves (r : Run) (st : State) (items : List Item) : Prop :=
  r.panicked = false ∧
  r.state.saved = st.saved ++ items ∧
  r.state.clock = st.clock + items.length ∧
  r.state.store = items.foldl (fun s i => saveToMongo i s) st.store

/-- The state `b` holds the same work as `a`: the same collection, the same saves, the
same readings of the clock, and all the requests of `a` in their order (and possibly
more). The log is not compared. -/
def State.SameWork (a b : State) : Prop :=
  a.store = b.store ∧ a.saved = b.saved ∧ a.clock = b.clock ∧
    List.Sublist a.requests b.requests

/-- Two runs that end alike, in states holding the same work. -/
def Run.SameWork (a b : Run) : Prop :=
  a.panicked = b.panicked ∧ State.SameWork a.state b.state

/-! ## Sample data -/

/-- An article as a provider may send it. -/
def sampleArticle : Item :=
  (Item.empty.put "url" (Value.str "https://example.org/a")).put "title" (Value.str "first")

/-- The same article on a later fetch, now without its title. -/
def sampleArticleLater : Item :=
  Item.empty.put "url" (Value.str "https://example.org/a")

/-- The state of a process that has just started, on an empty collection. -/
def State.init : State := ⟨Store.empty, [], [], [], 0⟩

/-- An environment in which every request is answered with the given response. -/
def sampleEnv (answer : Response) : Env :=
  { newsAPIKey := "key", twitterBearer := "token", http := fun _ => answer,
    now := fun n => n, format := fun _ => "?" }

/-- A watch list with one news subscription of one keyword. -/
def sampleWatchlist : Slice WatchItem := some [⟨"newsapi", some ["go"], none⟩]

/-- A provider answer whose one article has a title and no `url`. -/
def answerWithoutUrl : Response :=
  .body (some (.obj [("status", Json.str "ok"),
    ("articles", .arr [.obj [("title", Json.str "untitled")]])]))

/-- A provider answer whose list holds a `null` before an article. -/
def answerWithNull : Response :=
  .body (some (.obj [("articles",
    .arr [Json.null, .obj [("url", Json.str "https://example.org/a")]])]))

/-- A provider answer with one article. -/
def answerWithArticle : Response :=
  .body (some (.obj [("articles",
    .arr [.obj [("url", Json.str "https://example.org/a"), ("title", Json.str "first")]])]))

/-- An environment in which the news request for the keyword `bad` fails, and every
other request is answered with the given response. -/
def failingEnv (answer : Response) : Env :=
  { newsAPIKey := "key", twitterBearer := "token",
    http := fun req => if req.query.head? = some ("q", "bad") then .failed "timeout" else answer,
    now := fun n => n, format := fun _ => "?" }

/-- An environment in which the list returned for the keyword `go` holds a `null` before
an article, and every other request is answered with one article. -/
def nullForGoEnv : Env :=
  { newsAPIKey := "key", twitterBearer := "token",
    http := fun req =>
      if req.query.head? = some ("q", "go") then answerWithNull else answerWithArticle,
    now := fun n => n, format := fun _ => "?" }

/-- A watch list with one news subscription of two keywords. -/
def twoKeywordWatchlist : Slice WatchItem := some [⟨"newsapi", some ["go", "lean"], none⟩]

/-- The body of the scenario of the specification: one subscription of type `B` with
the keyword `z`. -/
def scenarioBody : Json :=
  .arr [.obj [("type", Json.str "B"), ("keywords", .arr [Json.str "z"])]]

/-! ## Lemmas on the store -/

theorem setFields_idem (item doc : Item) :
    setFields item (setFields item doc) = setFields item doc := by
  funext k
  simp only [setFields]
  cases item k <;> rfl

theorem any_updateFirst_of_keeps (p : Item → Bool) (f : Item → Item)
    (hf : ∀ d, p d = true → p (f d) = true) (ds : List Item) :
    (updateFirst p f ds).any p = ds.any p := by
  induction ds with
  | nil => rfl
  | cons d ds ih =>
    by_cases h : p d = true
    · simp [updateFirst, h, hf d h]
    · simp [updateFirst, h, ih]

theorem updateFirst_idem (p : Item → Bool) (f : Item → Item)
    (hf : ∀ d, p d = true → p (f d) = true) (hff : ∀ d, p d = true → f (f d) = f d)
    (ds : List Item) :
    updateFirst p f (updateFirst p f ds) = updateFirst p f ds := by
  induction ds with
  | nil => rfl
  | cons d ds ih =>
    by_cases h : p d = true
    · simp [updateFirst, h, hf d h, hff d h]
    · simp [updateFirst, h, ih]

theorem matchesUrl_setFields (item doc : Item)
    (h : matchesUrl (item.index "url") doc = true) :
    matchesUrl (item.index "url") (setFields item doc) = true := by
  unfold matchesUrl setFields
  cases hu : item "url" with
  | none => simpa [matchesUrl, Item.index, hu] using h
  | some v => simp [Item.index, hu]

theorem matchesUrl_applySet (item doc : Item)
    (h : matchesUrl (item.index "url") doc = true) :
    matchesUrl (item.index "url") (applySet item doc) = true := by
  unfold applySet
  split
  · exact matchesUrl_setFields item doc h
  · exact h

theorem applySet_idem (item doc : Item) :
    applySet item (applySet item doc) = applySet item doc := by
  by_cases h : item "_id" = none ∨ item "_id" = doc "_id"
  · have h2 : item "_id" = none ∨ item "_id" = setFields item doc "_id" := by
      cases hi : item "_id" with
      | none => exact Or.inl rfl
      | some x => right; simp [setFields, hi]
    rw [show applySet item doc = setFields item doc from if_pos h]
    rw [show applySet item (setFields item doc) = setFields item (setFields item doc)
      from if_pos h2]
    exact setFields_idem item doc
  · rw [show applySet item doc = doc from if_neg h]
    exact if_neg h

theorem matchesUrl_upsertDoc (item : Item) (n : Nat) :
    matchesUrl (item.index "url") (upsertDoc (item.index "url") item n) = true := by
  unfold matchesUrl upsertDoc setFields
  cases hu : item "url" with
  | none => simp [Item.index, hu, Item.put]
  | some v => simp [Item.index, hu]

theorem applySet_upsertDoc (fv : Value) (item : Item) (n : Nat) :
    applySet item (upsertDoc fv item n) = upsertDoc fv item n := by
  have h2 : item "_id" = none ∨ item "_id" = upsertDoc fv item n "_id" := by
    cases hi : item "_id" with
    | none => exact Or.inl rfl
    | some x => right; simp [upsertDoc, setFields, hi]
  rw [show applySet item (upsertDoc fv item n) = setFields item (upsertDoc fv item n)
    from if_pos h2]
  exact setFields_idem item _

theorem updateFirst_append_of_none (p : Item → Bool) (f : Item → Item) (ds : List Item)
    (d : Item) (h : ds.any p = false) (hd : p d = true) :
    updateFirst p f (ds ++ [d]) = ds ++ [f d] := by
  induction ds with
  | nil => simp [updateFirst, hd]
  | cons x xs ih =>
    simp only [List.any_cons, Bool.or_eq_false_iff] at h
    simp [updateFirst, h.1, ih h.2]

/-- C1. Saving the same item twice leaves the collection as saving it once does. -/
theorem saveToMongo_idempotent (s : Store) (item : Item) :
    saveToMongo item (saveToMongo item s) = saveToMongo item s := by
  unfold saveToMongo
  by_cases hany : s.docs.any (matchesUrl (item.index "url")) = true
  · have h1 : updateOne (item.index "url") item s =
        { s with docs := updateFirst (matchesUrl (item.index "url")) (applySet item) s.docs } := by
      simp only [updateOne, hany, if_true]
    rw [h1]
    have hkeep := any_updateFirst_of_keeps (matchesUrl (item.index "url")) (applySet item)
      (fun d hd => matchesUrl_applySet item d hd) s.docs
    simp only [updateOne, hkeep, hany, if_true]
    rw [updateFirst_idem _ _ (fun d hd => matchesUrl_applySet item d hd)
      (fun d _ => applySet_idem item d)]
  · have hany' : s.docs.any (matchesUrl (item.index "url")) = false := by
      simpa using hany
    by_cases hdup : s.docs.any (fun d => decide (d "_id" =
        upsertDoc (item.index "url") item s.nextId "_id")) = true
    · have h1 : updateOne (item.index "url") item s = s := by
        simp only [updateOne, hany', hdup, if_true, Bool.false_eq_true, if_false]
      rw [h1, h1]
    · have h1 : updateOne (item.index "url") item s =
          { docs := s.docs ++ [upsertDoc (item.index "url") item s.nextId],
            nextId := s.nextId + 1 } := by
        simp only [updateOne, hany', hdup, Bool.false_eq_true, if_false]
      rw [h1]
      have hm := matchesUrl_upsertDoc item s.nextId
      have hany2 : (s.docs ++ [upsertDoc (item.index "url") item s.nextId]).any
          (matchesUrl (item.index "url")) = true := by
        simp [List.any_append, hm]
      simp only [updateOne, hany2, if_true]
      rw [updateFirst_append_of_none _ _ _ _ hany' hm, applySet_upsertDoc]

/-! ## Last write on one identity -/

theorem updateOne_of_match (fv : Value) (item : Item) (s : Store)
    (h : s.docs.any (matchesUrl fv) = true) :
    updateOne fv item s =
      { s with docs := updateFirst (matchesUrl fv) (applySet item) s.docs } := by
  simp only [updateOne, h, if_true]

theorem updateOne_of_fresh (fv : Value) (item : Item) (s : Store)
    (h : s.docs.any (matchesUrl fv) = false)
    (hid : s.docs.any (fun d => decide (d "_id" = upsertDoc fv item s.nextId "_id")) = false) :
    updateOne fv item s =
      { docs := s.docs ++ [upsertDoc fv item s.nextId], nextId := s.nextId + 1 } := by
  simp only [updateOne, h, hid, Bool.false_eq_true, if_false]

theorem filter_eq_nil_of_any_false (p : Item → Bool) (ds : List Item)
    (h : ds.any p = false) : ds.filter p = [] := by
  induction ds with
  | nil => rfl
  | cons d ds ih =>
    simp only [List.any_cons, Bool.or_eq_false_iff] at h
    simp [List.filter, h.1, ih h.2]

/-- The record two successive writes on one identity leave: the fields of the second item
over those of the first, over the filter's `url` and the assigned `_id`. -/
theorem saveToMongo_twice_docs (s : Store) (i1 i2 : Item) (u : Value)
    (h1 : i1 "url" = some u) (h2 : i2 "url" = some u)
    (hnone : s.docs.any (matchesUrl u) = false)
    (hid1 : i1 "_id" = none) (hid2 : i2 "_id" = none)
    (hfresh : s.docs.any (fun d => decide (d "_id" = some (Value.oid s.nextId))) = false) :
    saveToMongo i2 (saveToMongo i1 s) =
      { docs := s.docs ++ [setFields i2 (upsertDoc u i1 s.nextId)],
        nextId := s.nextId + 1 } := by
  have hx1 : i1.index "url" = u := by simp [Item.index, h1]
  have hx2 : i2.index "url" = u := by simp [Item.index, h2]
  have hidv : upsertDoc u i1 s.nextId "_id" = some (Value.oid s.nextId) := by
    simp [upsertDoc, setFields, hid1, Item.put]
  have hm : matchesUrl u (upsertDoc u i1 s.nextId) = true := by
    have := matchesUrl_upsertDoc i1 s.nextId
    rwa [hx1] at this
  unfold saveToMongo
  rw [hx1, hx2, updateOne_of_fresh u i1 s hnone (by rw [hidv]; exact hfresh)]
  rw [updateOne_of_match u i2 _ (by simp [List.any_append, hm])]
  simp only
  rw [updateFirst_append_of_none _ _ _ _ hnone hm]
  have : applySet i2 (upsertDoc u i1 s.nextId) = setFields i2 (upsertDoc u i1 s.nextId) :=
    if_pos (Or.inl hid2)
  rw [this]

/-- C2, as the code has it. For two items with the same `url`, neither carrying an
`_id`, saved one after the other into a collection that has no record matching that
`url` and whose id counter is fresh: exactly one record matches the `url` afterwards;
it holds the value of the second item for every field of the second item, keeps the
value of the first item for every field only the first item has, carries the assigned
`_id`, and has no other field. -/
theorem saveToMongo_last_write_merges (s : Store) (i1 i2 : Item) (u : Value)
    (h1 : i1 "url" = some u) (h2 : i2 "url" = some u)
    (hnone : s.docs.any (matchesUrl u) = false)
    (hid1 : i1 "_id" = none) (hid2 : i2 "_id" = none)
    (hfresh : s.docs.any (fun d => decide (d "_id" = some (Value.oid s.nextId))) = false) :
    ∃ r, (saveToMongo i2 (saveToMongo i1 s)).docs.filter (matchesUrl u) = [r] ∧
      (∀ k v, i2 k = some v → r k = some v) ∧
      (∀ k v, i2 k = none → i1 k = some v → r k = some v) ∧
      r "_id" = some (Value.oid s.nextId) ∧
      (∀ k, i2 k = none → i1 k = none → k ≠ "_id" → r k = none) := by
  refine ⟨setFields i2 (upsertDoc u i1 s.nextId), ?_, ?_, ?_, ?_, ?_⟩
  · rw [saveToMongo_twice_docs s i1 i2 u h1 h2 hnone hid1 hid2 hfresh]
    have hm : matchesUrl u (setFields i2 (upsertDoc u i1 s.nextId)) = true := by
      simp [matchesUrl, setFields, h2]
    simp [List.filter_append, filter_eq_nil_of_any_false _ _ hnone, List.filter, hm]
  · intro k v hk
    simp [setFields, hk]
  · intro k v hk2 hk1
    simp [setFields, upsertDoc, hk2, hk1]
  · simp [setFields, upsertDoc, hid1, hid2, Item.put]
  · intro k hk2 hk1 hne
    have hurl : k ≠ "url" := by
      intro e
      rw [e, h1] at hk1
      cases hk1
    simp [setFields, upsertDoc, hk2, hk1, Item.put, hne, hurl, Item.empty]

/-- C2, witness: the two sample articles saved into the empty collection. -/
theorem saveToMongo_last_write_merges_witness :
    ∃ r, (saveToMongo sampleArticleLater (saveToMongo sampleArticle Store.empty)).docs.filter
        (matchesUrl (Value.str "https://example.org/a")) = [r] ∧
      (∀ k v, sampleArticleLater k = some v → r k = some v) ∧
      (∀ k v, sampleArticleLater k = none → sampleArticle k = some v → r k = some v) ∧
      r "_id" = some (Value.oid Store.empty.nextId) ∧
      (∀ k, sampleArticleLater k = none → sampleArticle k = none → k ≠ "_id" → r k = none) :=
  saveToMongo_last_write_merges Store.empty sampleArticle sampleArticleLater
    (Value.str "https://example.org/a") (by decide) (by decide) (by decide) (by decide)
    (by decide) (by decide)

/-- C2, as stated, fails: after the sample article and its later version are saved into
the empty collection, the one record of that `url` still has the `title` that only the
first item had. -/
theorem saveToMongo_keeps_field_of_first_item :
    sampleArticle "url" = some (Value.str "https://example.org/a") ∧
    sampleArticleLater "url" = some (Value.str "https://example.org/a") ∧
    sampleArticle "title" = some (Value.str "first") ∧
    sampleArticleLater "title" = none ∧
    ∃ r, (saveToMongo sampleArticleLater (saveToMongo sampleArticle Store.empty)).docs = [r] ∧
      r "title" = some (Value.str "first") ∧ r "title" ≠ sampleArticleLater "title" := by
  refine ⟨by decide, by decide, by decide, by decide, ?_⟩
  rw [saveToMongo_twice_docs Store.empty sampleArticle sampleArticleLater
    (Value.str "https://example.org/a") (by decide) (by decide) (by decide) (by decide)
    (by decide) (by decide)]
  refine ⟨_, rfl, ?_, ?_⟩ <;> decide

/-! ## Loops -/

theorem forEach_append {α : Type} (body : α → State → Run) (xs ys : List α) (st : State) :
    forEach body (xs ++ ys) st = (forEach body xs st).bind (forEach body ys) := by
  induction xs generalizing st with
  | nil => rfl
  | cons x xs ih =>
    simp only [List.cons_append, forEach]
    cases body x st with
    | done st1 => exact ih st1
    | panic st1 => rfl

theorem forEach_nil {α : Type} (body : α → State → Run) (st : State) :
    forEach body [] st = .done st := rfl

theorem forEach_cons {α : Type} (body : α → State → Run) (x : α) (xs : List α) (st : State) :
    forEach body (x :: xs) st = (body x st).bind (forEach body xs) := rfl

theorem upsertsFrom_append (env : Env) (ps qs : List (String × Option Item)) (clock : Nat) :
    upsertsFrom env clock (ps ++ qs) =
      upsertsFrom env clock ps ++
        upsertsFrom env (clock + (upsertsFrom env clock ps).length) qs := by
  induction ps generalizing clock with
  | nil => simp [upsertsFrom]
  | cons p ps ih =>
    obtain ⟨ty, o⟩ := p
    cases o with
    | none => simpa [upsertsFrom] using ih clock
    | some m =>
      show tagged env ty m (env.now clock) :: upsertsFrom env (clock + 1) (ps ++ qs) = _
      rw [ih (clock + 1)]
      simp [upsertsFrom, Nat.add_assoc, Nat.add_comm 1]

theorem saves_done_nil (st : State) : (Run.done st).Saves st [] := by
  simp [Run.Saves, Run.panicked, Run.state]

theorem saves_bind {r : Run} {st : State} {xs ys : List Item} {f : State → Run}
    (h : r.Saves st xs) (hf : (f r.state).Saves r.state ys) :
    (r.bind f).Saves st (xs ++ ys) := by
  obtain ⟨hp, hs, hc, hst⟩ := h
  obtain ⟨hp2, hs2, hc2, hst2⟩ := hf
  cases r with
  | panic s1 => simp [Run.panicked] at hp
  | done s1 =>
    have hs1 : s1.saved = st.saved ++ xs := hs
    have hc1 : s1.clock = st.clock + xs.length := hc
    have hst1 : s1.store = xs.foldl (fun s i => saveToMongo i s) st.store := hst
    have hs3 : (f s1).state.saved = s1.saved ++ ys := hs2
    have hc3 : (f s1).state.clock = s1.clock + ys.length := hc2
    have hst3 : (f s1).state.store = ys.foldl (fun s i => saveToMongo i s) s1.store := hst2
    refine ⟨hp2, ?_, ?_, ?_⟩
    · show (f s1).state.saved = _
      rw [hs3, hs1, List.append_assoc]
    · show (f s1).state.clock = _
      rw [hc3, hc1, List.length_append, Nat.add_assoc]
    · show (f s1).state.store = _
      rw [hst3, hst1, List.foldl_append]

theorem saves_of_eq {r : Run} {st : State} {xs ys : List Item} (h : r.Saves st xs)
    (e : xs = ys) : r.Saves st ys := e ▸ h

/-- A loop whose body saves the items of its payloads saves the items of all of them. -/
theorem forEach_saves {α : Type} (env : Env) (body : α → State → Run)
    (pay : α → List (String × Option Item))
    (hbody : ∀ x st, (∀ q ∈ pay x, q.2 ≠ none) →
      (body x st).Saves st (upsertsFrom env st.clock (pay x)))
    (xs : List α) (st : State) (hobj : ∀ q ∈ xs.flatMap pay, q.2 ≠ none) :
    (forEach body xs st).Saves st (upsertsFrom env st.clock (xs.flatMap pay)) := by
  induction xs generalizing st with
  | nil => exact saves_done_nil st
  | cons x xs ih =>
    have hx : ∀ q ∈ pay x, q.2 ≠ none := fun q hq =>
      hobj q (by simp only [List.flatMap_cons, List.mem_append]; exact Or.inl hq)
    have hxs : ∀ q ∈ xs.flatMap pay, q.2 ≠ none := fun q hq =>
      hobj q (by simp only [List.flatMap_cons, List.mem_append]; exact Or.inr hq)
    have h1 := hbody x st hx
    have h2 := ih (body x st).state hxs
    refine saves_of_eq (saves_bind h1 h2) ?_
    rw [List.flatMap_cons, upsertsFrom_append, h1.2.2.1]

theorem storeArticle_saves (env : Env) (p : Option Item) (st : State)
    (h : ∀ q ∈ [(("newsapi" : String), p)], q.2 ≠ none) :
    (storeArticle env p st).Saves st (upsertsFrom env st.clock [("newsapi", p)]) := by
  cases p with
  | none => exact absurd rfl (h ("newsapi", none) (List.mem_singleton.2 rfl))
  | some m =>
    simp [storeArticle, Run.Saves, Run.panicked, Run.state, State.save, upsertsFrom, tagged]

theorem storeTweet_saves (env : Env) (p : Option Item) (st : State)
    (h : ∀ q ∈ [(("twitter" : String), p)], q.2 ≠ none) :
    (storeTweet env p st).Saves st (upsertsFrom env st.clock [("twitter", p)]) := by
  cases p with
  | none => exact absurd rfl (h ("twitter", none) (List.mem_singleton.2 rfl))
  | some m =>
    simp [storeTweet, Run.Saves, Run.panicked, Run.state, State.save, upsertsFrom, tagged]

theorem flatMap_singleton_pair (ty : String) (ps : List (Option Item)) :
    ps.flatMap (fun p => [(ty, p)]) = ps.map (fun p => (ty, p)) := by
  induction ps with
  | nil => rfl
  | cons p ps ih => simp [List.flatMap_cons, ih]

/-- The payloads of one keyword of a subscription of the given type. -/
theorem fetchNews_saves (env : Env) (kw : String) (st : State)
    (hobj : ∀ q ∈ (fetched env "newsapi" kw).map (fun p => (("newsapi" : String), p)),
      q.2 ≠ none) :
    (fetchNews env kw st).Saves st
      (upsertsFrom env st.clock ((fetched env "newsapi" kw).map (fun p => ("newsapi", p)))) := by
  unfold fetchNews
  simp only [fetched, if_true] at hobj ⊢
  cases hr : env.http (newsRequest env kw) with
  | failed err =>
    simp [Run.Saves, Run.panicked, Run.state, upsertsFrom]
  | body doc =>
    simp only [hr] at hobj ⊢
    rw [← flatMap_singleton_pair] at hobj ⊢
    exact forEach_saves env (storeArticle env) (fun p => [("newsapi", p)])
      (storeArticle_saves env) _ { st with requests := st.requests ++ [newsRequest env kw] } hobj

theorem fetchTwitter_saves (env : Env) (kw : String) (st : State)
    (hobj : ∀ q ∈ (fetched env "twitter" kw).map (fun p => (("twitter" : String), p)),
      q.2 ≠ none) :
    (fetchTwitter env kw st).Saves st
      (upsertsFrom env st.clock ((fetched env "twitter" kw).map (fun p => ("twitter", p)))) := by
  unfold fetchTwitter
  have hne : ¬ (("twitter" : String) = "newsapi") := by decide
  simp only [fetched, if_true, hne, if_false] at hobj ⊢
  cases hr : env.http (twitterRequest env kw) with
  | failed err =>
    simp [Run.Saves, Run.panicked, Run.state, upsertsFrom]
  | body doc =>
    simp only [hr] at hobj ⊢
    rw [← flatMap_singleton_pair] at hobj ⊢
    exact forEach_saves env (storeTweet env) (fun p => [("twitter", p)])
      (storeTweet_saves env) _ { st with requests := st.requests ++ [twitterRequest env kw] }
      hobj

theorem processItem_saves (env : Env) (item : WatchItem) (st : State)
    (hobj : ∀ q ∈ tickPayloads env [item], q.2 ≠ none) :
    (processItem env item st).Saves st (upsertsFrom env st.clock (tickPayloads env [item])) := by
  have he : tickPayloads env [item] = item.keywords.elems.flatMap (fun kw =>
      (fetched env item.type kw).map (fun p => (item.type, p))) := by
    simp [tickPayloads]
  rw [he] at hobj ⊢
  unfold processItem
  by_cases hn : item.type = "newsapi"
  · rw [if_pos hn]
    rw [hn] at hobj ⊢
    exact forEach_saves env (fetchNews env) _ (fetchNews_saves env) _ st hobj
  · rw [if_neg hn]
    by_cases ht : item.type = "twitter"
    · rw [if_pos ht]
      rw [ht] at hobj ⊢
      exact forEach_saves env (fetchTwitter env) _ (fetchTwitter_saves env) _ st hobj
    · rw [if_neg ht]
      have hz : item.keywords.elems.flatMap (fun kw =>
          (fetched env item.type kw).map (fun p => (item.type, p))) = [] := by
        induction item.keywords.elems with
        | nil => rfl
        | cons k ks ih => simp [List.flatMap_cons, fetched, hn, ht, ih]
      rw [hz]
      exact saves_done_nil st

/-- What a sweep saves when every element of every list the providers return is an
object: the items of the payloads of the tick, in order. -/
theorem processList_saves (env : Env) (localList : List WatchItem) (st : State)
    (hobj : ∀ q ∈ tickPayloads env localList, q.2 ≠ none) :
    (processList env localList st).Saves st
      (upsertsFrom env st.clock (tickPayloads env localList)) := by
  have he : tickPayloads env localList =
      localList.flatMap (fun sub => tickPayloads env [sub]) := by
    simp [tickPayloads]
  rw [he] at hobj ⊢
  exact forEach_saves env (processItem env) _ (processItem_saves env) _ st hobj

/-! ## What the fetchers hand to the store -/

theorem upsertsFrom_objects_length (env : Env) (ty : String) (ps : List Item) (clock : Nat) :
    (upsertsFrom env clock (ps.map (fun p => (ty, some p)))).length = ps.length := by
  induction ps generalizing clock with
  | nil => rfl
  | cons p ps ih => simp [upsertsFrom, ih]

theorem fetched_objects_ne_none (ty : String) (ps : List Item) :
    ∀ q ∈ (ps.map some).map (fun p => (ty, p)), q.2 ≠ none := by
  intro q hq
  simp only [List.map_map, List.mem_map, Function.comp] at hq
  obtain ⟨p, _, rfl⟩ := hq
  simp

/-- C3, as the code has it. Every payload that is a JSON object is passed to
`saveToMongo`, whether or not an identity can be derived from it: when the list a
provider returns for a keyword holds the objects `ps`, the fetcher goes through and
saves one item for each of them, in order. A news article is saved with the `url` it
came with, also when it has none; a tweet without an `id` is saved under the `url`
ending in `<nil>`. -/
theorem fetchers_save_every_object (env : Env) (kw : String) (st : State) (ps : List Item) :
    (fetched env "newsapi" kw = ps.map some →
      (fetchNews env kw st).Saves st
        (upsertsFrom env st.clock (ps.map (fun p => ("newsapi", some p))))) ∧
    (fetched env "twitter" kw = ps.map some →
      (fetchTwitter env kw st).Saves st
        (upsertsFrom env st.clock (ps.map (fun p => ("twitter", some p))))) ∧
    (∀ ty, (upsertsFrom env st.clock (ps.map (fun p => (ty, some p)))).length = ps.length) ∧
    (∀ p t, newsItem p t "url" = p "url") ∧
    (∀ p t, p "id" = none → twitterItem env p t "url" =
      some (Value.str "https://twitter.com/i/web/status/<nil>")) := by
  refine ⟨?_, ?_, ?_, ?_, ?_⟩
  · intro h
    have := fetchNews_saves env kw st (by rw [h]; exact fetched_objects_ne_none _ ps)
    rw [h, List.map_map] at this
    exact this
  · intro h
    have := fetchTwitter_saves env kw st (by rw [h]; exact fetched_objects_ne_none _ ps)
    rw [h, List.map_map] at this
    exact this
  · intro ty
    exact upsertsFrom_objects_length env ty ps st.clock
  · intro p t
    simp [newsItem, Item.put]
  · intro p t hid
    simp [twitterItem, Item.put, Item.index, hid, sprintV]

/-- C3, witness: the answer with one article without `url`. -/
theorem fetchers_save_every_object_witness :
    fetched (sampleEnv answerWithoutUrl) "newsapi" "go" =
        [decodeObject [("title", Json.str "untitled")]].map some ∧
    (fetchNews (sampleEnv answerWithoutUrl) "go" State.init).Saves State.init
      (upsertsFrom (sampleEnv answerWithoutUrl) State.init.clock
        ([decodeObject [("title", Json.str "untitled")]].map
          (fun p => ("newsapi", some p)))) :=
  ⟨rfl, (fetchers_save_every_object (sampleEnv answerWithoutUrl) "go" State.init
      [decodeObject [("title", Json.str "untitled")]]).1 rfl⟩

/-- C3, as stated, fails: an article without a `url` is passed to `saveToMongo` and
stored. -/
theorem article_without_url_is_saved :
    fetched (sampleEnv answerWithoutUrl) "newsapi" "go" =
        [some (decodeObject [("title", Json.str "untitled")])] ∧
    decodeObject [("title", Json.str "untitled")] "url" = none ∧
    (schedulerTick (sampleEnv answerWithoutUrl) sampleWatchlist State.init).state.saved.map
        (fun i => (i "url", i "title")) = [(none, some (Value.str "untitled"))] ∧
    (schedulerTick (sampleEnv answerWithoutUrl) sampleWatchlist
        State.init).state.store.docs.length = 1 := by
  refine ⟨rfl, by decide, ?_, ?_⟩ <;> decide

/-- C4, on the code: a `null` in the list a provider returns stops the tick in a panic
(a write into a nil map). With the keywords `go` and `lean`, the list for `go` holding a
`null` and then an article and the list for `lean` one article, the reference reading
has two upserts; the tick makes none, and never sends the request for `lean`. -/
theorem schedulerTick_panics_on_null_element :
    (fetched nullForGoEnv "newsapi" "go").map Option.isSome = [false, true] ∧
    (fetched nullForGoEnv "newsapi" "lean").map Option.isSome = [true] ∧
    (upsertsFrom nullForGoEnv 0
        (tickPayloads nullForGoEnv (snapshot twoKeywordWatchlist))).length = 2 ∧
    (schedulerTick nullForGoEnv twoKeywordWatchlist State.init).panicked = true ∧
    (schedulerTick nullForGoEnv twoKeywordWatchlist State.init).state.saved.length = 0 ∧
    (schedulerTick nullForGoEnv twoKeywordWatchlist State.init).state.requests =
      [newsRequest nullForGoEnv "go"] := by
  refine ⟨?_, ?_, ?_, ?_, ?_, ?_⟩ <;> decide

/-- The tick against its reference reading, when every element of every list the
providers return is an object: the tick goes through, and the items it passes to
`saveToMongo` are those of the payloads of the tick, in order, one for each payload. -/
theorem schedulerTick_saves_reference (env : Env) (watchlist : Slice WatchItem) (st : State)
    (hobj : ∀ q ∈ tickPayloads env (snapshot watchlist), q.2 ≠ none) :
    (schedulerTick env watchlist st).panicked = false ∧
    (schedulerTick env watchlist st).state.saved =
      st.saved ++ upsertsFrom env st.clock (tickPayloads env (snapshot watchlist)) ∧
    (upsertsFrom env st.clock (tickPayloads env (snapshot watchlist))).length =
      (tickPayloads env (snapshot watchlist)).length := by
  have h := processList_saves env (snapshot watchlist) st hobj
  refine ⟨h.1, h.2.1, ?_⟩
  generalize tickPayloads env (snapshot watchlist) = ps at hobj
  generalize st.clock = c
  induction ps generalizing c with
  | nil => rfl
  | cons q qs ih =>
    obtain ⟨ty, o⟩ := q
    cases o with
    | none => exact absurd rfl (hobj (ty, none) (List.mem_cons_self _ _))
    | some m =>
      simp only [upsertsFrom, List.length_cons]
      rw [ih (fun q hq => hobj q (List.mem_cons_of_mem _ hq))]

/-! ## Unknown source types -/

/-- C5. A subscription whose type is neither `newsapi` nor `twitter` is passed over:
processing it returns the state it was given, with no request sent and nothing saved,
and the tick on a list holding it is the tick on the list without it. -/
theorem unknown_type_skipped (env : Env) (pre post : List WatchItem) (u : WatchItem)
    (st : State) (h1 : u.type ≠ "newsapi") (h2 : u.type ≠ "twitter") :
    processItem env u st = .done st ∧
    schedulerTick env (some (pre ++ u :: post)) st =
      schedulerTick env (some (pre ++ post)) st := by
  have hu : ∀ s, processItem env u s = .done s := fun s => by
    simp [processItem, h1, h2]
  refine ⟨hu st, ?_⟩
  simp only [schedulerTick, snapshot, Slice.elems, processList]
  rw [forEach_append, forEach_append]
  cases forEach (processItem env) pre st with
  | done s1 =>
    show forEach (processItem env) (u :: post) s1 = forEach (processItem env) post s1
    rw [forEach_cons, hu s1]
    rfl
  | panic s1 => rfl

/-- C5, witness: a subscription of type `rss` between two news subscriptions. -/
theorem unknown_type_skipped_witness :
    (⟨"rss", some ["x"], none⟩ : WatchItem).type ≠ "newsapi" ∧
    (⟨"rss", some ["x"], none⟩ : WatchItem).type ≠ "twitter" ∧
    processItem (sampleEnv answerWithArticle) ⟨"rss", some ["x"], none⟩ State.init =
      .done State.init ∧
    schedulerTick (sampleEnv answerWithArticle)
        (some ([⟨"newsapi", some ["go"], none⟩] ++
          ⟨"rss", some ["x"], none⟩ :: [⟨"newsapi", some ["lean"], none⟩])) State.init =
      schedulerTick (sampleEnv answerWithArticle)
        (some ([⟨"newsapi", some ["go"], none⟩] ++ [⟨"newsapi", some ["lean"], none⟩]))
        State.init :=
  ⟨by decide, by decide,
    unknown_type_skipped (sampleEnv answerWithArticle) [⟨"newsapi", some ["go"], none⟩]
      [⟨"newsapi", some ["lean"], none⟩] ⟨"rss", some ["x"], none⟩ State.init
      (by decide) (by decide)⟩

/-! ## The normalizer -/

/-- C9. The item a fetcher passes to `saveToMongo` for an object payload carries the tag
of the fetcher in `source_type`, and every field of the payload with its value, apart
from `source_type` and `fetched_at`, and for a tweet the derived `url`. -/
theorem normalizer_tags_and_passes_through (env : Env) (p : Item) (st : State) :
    ((storeArticle env (some p) st).state.saved =
        st.saved ++ [newsItem p (env.now st.clock)] ∧
      newsItem p (env.now st.clock) "source_type" = some (Value.str "newsapi") ∧
      ∀ k, k ≠ "source_type" → k ≠ "fetched_at" →
        newsItem p (env.now st.clock) k = p k) ∧
    ((storeTweet env (some p) st).state.saved =
        st.saved ++ [twitterItem env p (env.now st.clock)] ∧
      twitterItem env p (env.now st.clock) "source_type" = some (Value.str "twitter") ∧
      ∀ k, k ≠ "source_type" → k ≠ "fetched_at" → k ≠ "url" →
        twitterItem env p (env.now st.clock) k = p k) := by
  refine ⟨⟨rfl, ?_, ?_⟩, ⟨rfl, ?_, ?_⟩⟩
  · simp [newsItem, Item.put]
  · intro k h1 h2
    simp [newsItem, Item.put, h1, h2]
  · simp [twitterItem, Item.put]
  · intro k h1 h2 h3
    simp [twitterItem, Item.put, h1, h2, h3]

/-- C9, witness: the sample article, and its `title`. -/
theorem normalizer_tags_and_passes_through_witness :
    newsItem sampleArticle ((sampleEnv answerWithArticle).now State.init.clock) "title" =
      sampleArticle "title" ∧
    twitterItem (sampleEnv answerWithArticle) sampleArticle
        ((sampleEnv answerWithArticle).now State.init.clock) "title" =
      sampleArticle "title" :=
  ⟨(normalizer_tags_and_passes_through (sampleEnv answerWithArticle) sampleArticle
      State.init).1.2.2 "title" (by decide) (by decide),
    (normalizer_tags_and_passes_through (sampleEnv answerWithArticle) sampleArticle
      State.init).2.2.2 "title" (by decide) (by decide) (by decide)⟩

/-! ## Failed fetches -/

theorem state_sameWork_refl (a : State) : State.SameWork a a :=
  ⟨rfl, rfl, rfl, List.Sublist.refl _⟩

theorem run_sameWork_refl (r : Run) : Run.SameWork r r :=
  ⟨rfl, state_sameWork_refl _⟩

theorem sameWork_bind {r1 r2 : Run} {f g : State → Run} (h : Run.SameWork r1 r2)
    (hfg : ∀ a b, State.SameWork a b → Run.SameWork (f a) (g b)) :
    Run.SameWork (r1.bind f) (r2.bind g) := by
  cases r1 with
  | done a =>
    cases r2 with
    | done b => exact hfg a b h.2
    | panic b => exact absurd h.1 (by simp [Run.panicked])
  | panic a =>
    cases r2 with
    | done b => exact absurd h.1 (by simp [Run.panicked])
    | panic b => exact h

theorem forEach_sameWork {α : Type} (body : α → State → Run)
    (hbody : ∀ x a b, State.SameWork a b → Run.SameWork (body x a) (body x b))
    (xs : List α) (a b : State) (h : State.SameWork a b) :
    Run.SameWork (forEach body xs a) (forEach body xs b) := by
  induction xs generalizing a b with
  | nil => exact ⟨rfl, h⟩
  | cons x xs ih => exact sameWork_bind (hbody x a b h) ih

theorem storeArticle_sameWork (env : Env) (p : Option Item) (a b : State)
    (h : State.SameWork a b) :
    Run.SameWork (storeArticle env p a) (storeArticle env p b) := by
  obtain ⟨h1, h2, h3, h4⟩ := h
  cases p with
  | none => exact ⟨rfl, h1, h2, h3, h4⟩
  | some m =>
    refine ⟨rfl, ?_, ?_, ?_, h4⟩
    · show saveToMongo _ a.store = saveToMongo _ b.store
      rw [h1, h3]
    · show a.saved ++ _ = b.saved ++ _
      rw [h2, h3]
    · show a.clock + 1 = b.clock + 1
      rw [h3]

theorem storeTweet_sameWork (env : Env) (p : Option Item) (a b : State)
    (h : State.SameWork a b) :
    Run.SameWork (storeTweet env p a) (storeTweet env p b) := by
  obtain ⟨h1, h2, h3, h4⟩ := h
  cases p with
  | none => exact ⟨rfl, h1, h2, h3, h4⟩
  | some m =>
    refine ⟨rfl, ?_, ?_, ?_, h4⟩
    · show saveToMongo _ a.store = saveToMongo _ b.store
      rw [h1, h3]
    · show a.saved ++ _ = b.saved ++ _
      rw [h2, h3]
    · show a.clock + 1 = b.clock + 1
      rw [h3]

theorem fetchNews_sameWork (env : Env) (kw : String) (a b : State)
    (h : State.SameWork a b) :
    Run.SameWork (fetchNews env kw a) (fetchNews env kw b) := by
  obtain ⟨h1, h2, h3, h4⟩ := h
  unfold fetchNews
  cases env.http (newsRequest env kw) with
  | failed err => exact ⟨rfl, h1, h2, h3, h4.append (List.Sublist.refl _)⟩
  | body doc =>
    exact forEach_sameWork _ (storeArticle_sameWork env) _ _ _
      ⟨h1, h2, h3, h4.append (List.Sublist.refl _)⟩

theorem fetchTwitter_sameWork (env : Env) (kw : String) (a b : State)
    (h : State.SameWork a b) :
    Run.SameWork (fetchTwitter env kw a) (fetchTwitter env kw b) := by
  obtain ⟨h1, h2, h3, h4⟩ := h
  unfold fetchTwitter
  cases env.http (twitterRequest env kw) with
  | failed err => exact ⟨rfl, h1, h2, h3, h4.append (List.Sublist.refl _)⟩
  | body doc =>
    exact forEach_sameWork _ (storeTweet_sameWork env) _ _ _
      ⟨h1, h2, h3, h4.append (List.Sublist.refl _)⟩

theorem processItem_sameWork (env : Env) (item : WatchItem) (a b : State)
    (h : State.SameWork a b) :
    Run.SameWork (processItem env item a) (processItem env item b) := by
  unfold processItem
  split
  · exact forEach_sameWork _ (fetchNews_sameWork env) _ _ _ h
  · split
    · exact forEach_sameWork _ (fetchTwitter_sameWork env) _ _ _ h
    · exact ⟨rfl, h⟩

/-- A loop over a list with one more element, on which the body only adds to the
requests and the log, holds the same work as the loop without it. -/
theorem forEach_insert_sameWork {α : Type} (body : α → State → Run)
    (hbody : ∀ x a b, State.SameWork a b → Run.SameWork (body x a) (body x b))
    (xs ys : List α) (y : α)
    (hy : ∀ s, ∃ s', body y s = .done s' ∧ State.SameWork s s') (a b : State)
    (h : State.SameWork a b) :
    Run.SameWork (forEach body (xs ++ ys) a) (forEach body (xs ++ y :: ys) b) := by
  rw [forEach_append, forEach_append]
  refine sameWork_bind (forEach_sameWork body hbody xs a b h) ?_
  intro s t hst
  rw [forEach_cons]
  obtain ⟨t', ht, htt⟩ := hy t
  rw [ht]
  refine forEach_sameWork body hbody ys s t' ?_
  exact ⟨hst.1.trans htt.1, hst.2.1.trans htt.2.1, hst.2.2.1.trans htt.2.2.1,
    hst.2.2.2.trans htt.2.2.2⟩

theorem fetchNews_failed (env : Env) (kw err : String) (s : State)
    (h : env.http (newsRequest env kw) = .failed err) :
    fetchNews env kw s = .done { s with
      requests := s.requests ++ [newsRequest env kw],
      logs := s.logs ++ ["NewsAPI error: " ++ err] } := by
  simp [fetchNews, h]

theorem fetchTwitter_failed (env : Env) (kw err : String) (s : State)
    (h : env.http (twitterRequest env kw) = .failed err) :
    fetchTwitter env kw s = .done { s with
      requests := s.requests ++ [twitterRequest env kw],
      logs := s.logs ++ ["Twitter error: " ++ err] } := by
  simp [fetchTwitter, h]

/-- C6. When the request for one keyword of a subscription fails, that keyword stores
nothing: the unit of work returns with the collection and the saves as they were and one
more line in the log. The tick then runs on: it ends as the tick without that keyword
ends (in a panic or not), with the same collection and the same saves, and every request
of the tick without that keyword, for the keywords and subscriptions before and after
it, is sent in the same order. When the lists returned for the other keywords hold
objects only, the tick goes through and saves exactly the items of their payloads. -/
theorem fetch_failure_isolated (env : Env) (pre post : List WatchItem) (ty : String)
    (ks1 ks2 : List String) (k2 : String) (users : Slice String) (err : String) (st : State)
    (hfail : (ty = "newsapi" ∧ env.http (newsRequest env k2) = .failed err) ∨
      (ty = "twitter" ∧ env.http (twitterRequest env k2) = .failed err)) :
    (∀ s, ∃ s', processItem env ⟨ty, some [k2], users⟩ s = .done s' ∧
      s'.store = s.store ∧ s'.saved = s.saved ∧ s'.logs.length = s.logs.length + 1) ∧
    (schedulerTick env (some (pre ++ ⟨ty, some (ks1 ++ k2 :: ks2), users⟩ :: post)) st).panicked
      = (schedulerTick env (some (pre ++ ⟨ty, some (ks1 ++ ks2), users⟩ :: post)) st).panicked ∧
    (schedulerTick env (some (pre ++ ⟨ty, some (ks1 ++ k2 :: ks2), users⟩ :: post))
        st).state.store
      = (schedulerTick env (some (pre ++ ⟨ty, some (ks1 ++ ks2), users⟩ :: post))
        st).state.store ∧
    (schedulerTick env (some (pre ++ ⟨ty, some (ks1 ++ k2 :: ks2), users⟩ :: post))
        st).state.saved
      = (schedulerTick env (some (pre ++ ⟨ty, some (ks1 ++ ks2), users⟩ :: post))
        st).state.saved ∧
    List.Sublist
      (schedulerTick env (some (pre ++ ⟨ty, some (ks1 ++ ks2), users⟩ :: post))
        st).state.requests
      (schedulerTick env (some (pre ++ ⟨ty, some (ks1 ++ k2 :: ks2), users⟩ :: post))
        st).state.requests ∧
    ((∀ q ∈ tickPayloads env (pre ++ ⟨ty, some (ks1 ++ ks2), users⟩ :: post), q.2 ≠ none) →
      (schedulerTick env (some (pre ++ ⟨ty, some (ks1 ++ k2 :: ks2), users⟩ :: post))
          st).panicked = false ∧
      (schedulerTick env (some (pre ++ ⟨ty, some (ks1 ++ k2 :: ks2), users⟩ :: post))
          st).state.saved =
        st.saved ++ upsertsFrom env st.clock
          (tickPayloads env (pre ++ ⟨ty, some (ks1 ++ ks2), users⟩ :: post))) := by
  have hunit : ∀ s, ∃ s', processItem env ⟨ty, some [k2], users⟩ s = .done s' ∧
      s'.store = s.store ∧ s'.saved = s.saved ∧ s'.logs.length = s.logs.length + 1 := by
    intro s
    rcases hfail with ⟨hty, hf⟩ | ⟨hty, hf⟩
    · subst hty
      refine ⟨{ s with requests := s.requests ++ [newsRequest env k2],
                       logs := s.logs ++ ["NewsAPI error: " ++ err] }, ?_, rfl, rfl, ?_⟩
      · simp only [processItem, if_true, Slice.elems, forEach_cons, forEach_nil]
        rw [fetchNews_failed env k2 err s hf]
        rfl
      · simp
    · subst hty
      have hne : ¬ (("twitter" : String) = "newsapi") := by decide
      refine ⟨{ s with requests := s.requests ++ [twitterRequest env k2],
                       logs := s.logs ++ ["Twitter error: " ++ err] }, ?_, rfl, rfl, ?_⟩
      · simp only [processItem, hne, if_false, if_true, Slice.elems, forEach_cons,
          forEach_nil]
        rw [fetchTwitter_failed env k2 err s hf]
        rfl
      · simp
  have hitem : ∀ a b, State.SameWork a b →
      Run.SameWork (processItem env ⟨ty, some (ks1 ++ ks2), users⟩ a)
        (processItem env ⟨ty, some (ks1 ++ k2 :: ks2), users⟩ b) := by
    intro a b hab
    rcases hfail with ⟨hty, hf⟩ | ⟨hty, hf⟩
    · subst hty
      simp only [processItem, if_true, Slice.elems]
      refine forEach_insert_sameWork _ (fetchNews_sameWork env) ks1 ks2 k2 ?_ a b hab
      intro s
      exact ⟨_, fetchNews_failed env k2 err s hf, rfl, rfl, rfl,
        List.sublist_append_left _ _⟩
    · subst hty
      have hne : ¬ (("twitter" : String) = "newsapi") := by decide
      simp only [processItem, hne, if_false, if_true, Slice.elems]
      refine forEach_insert_sameWork _ (fetchTwitter_sameWork env) ks1 ks2 k2 ?_ a b hab
      intro s
      exact ⟨_, fetchTwitter_failed env k2 err s hf, rfl, rfl, rfl,
        List.sublist_append_left _ _⟩
  have hlist : Run.SameWork
      (schedulerTick env (some (pre ++ ⟨ty, some (ks1 ++ ks2), users⟩ :: post)) st)
      (schedulerTick env (some (pre ++ ⟨ty, some (ks1 ++ k2 :: ks2), users⟩ :: post)) st) := by
    simp only [schedulerTick, snapshot, Slice.elems, processList]
    rw [forEach_append, forEach_append]
    refine sameWork_bind (run_sameWork_refl _) ?_
    intro a b hab
    rw [forEach_cons, forEach_cons]
    exact sameWork_bind (hitem a b hab)
      (fun a b hab => forEach_sameWork _ (processItem_sameWork env) post a b hab)
  refine ⟨hunit, hlist.1.symm, hlist.2.1.symm, hlist.2.2.1.symm, hlist.2.2.2.2, ?_⟩
  intro hobj
  have href := schedulerTick_saves_reference env
    (some (pre ++ ⟨ty, some (ks1 ++ ks2), users⟩ :: post)) st hobj
  exact ⟨hlist.1.symm.trans href.1, hlist.2.2.1.symm.trans href.2.1⟩

/-- C6, witness: keywords `go`, `bad`, `lean` of one news subscription, the request for
`bad` failing; the articles of `go` and `lean` are saved. -/
theorem fetch_failure_isolated_witness :
    (failingEnv answerWithArticle).http (newsRequest (failingEnv answerWithArticle) "bad") =
      .failed "timeout" ∧
    (schedulerTick (failingEnv answerWithArticle)
        (some ([] ++ ⟨"newsapi", some (["go"] ++ "bad" :: ["lean"]), none⟩ :: [])) State.init
      ).state.saved
      = (schedulerTick (failingEnv answerWithArticle)
        (some ([] ++ ⟨"newsapi", some (["go"] ++ ["lean"]), none⟩ :: [])) State.init
      ).state.saved ∧
    (schedulerTick (failingEnv answerWithArticle)
        (some ([] ++ ⟨"newsapi", some (["go"] ++ "bad" :: ["lean"]), none⟩ :: [])) State.init
      ).state.saved.map (fun i => (i "title", i "fetched_at")) =
      [(some (Value.str "first"), some (Value.time 0)),
       (some (Value.str "first"), some (Value.time 1))] :=
  ⟨rfl,
    (fetch_failure_isolated (failingEnv answerWithArticle) [] [] "newsapi" ["go"] ["lean"]
      "bad" none "timeout" State.init (Or.inl ⟨rfl, rfl⟩)).2.2.2.1,
    by decide⟩

/-! ## The handlers of the watch list -/

/-- C7. A POST whose body does not decode is answered with 400 and the error message,
and leaves the held watch list as it was. -/
theorem post_malformed_leaves_watchlist (watchlist : Slice WatchItem)
    (body : Except String Json) (e : String) (h : decodeBody body = .error e) :
    postWatchlist body watchlist =
      (⟨400, some "text/plain; charset=utf-8", .text (e ++ "\n")⟩, watchlist) := by
  simp only [postWatchlist, h]

/-- C7, witness: a body holding an object, where a list is expected. -/
theorem post_malformed_leaves_watchlist_witness :
    decodeBody (.ok (.obj [("type", Json.str "newsapi")])) =
      .error "json: cannot unmarshal object into Go value of type []main.WatchItem" ∧
    postWatchlist (.ok (.obj [("type", Json.str "newsapi")])) sampleWatchlist =
      (⟨400, some "text/plain; charset=utf-8",
        .text ("json: cannot unmarshal object into Go value of type []main.WatchItem" ++ "\n")⟩,
        sampleWatchlist) :=
  ⟨rfl, post_malformed_leaves_watchlist sampleWatchlist
    (.ok (.obj [("type", Json.str "newsapi")]))
    "json: cannot unmarshal object into Go value of type []main.WatchItem" rfl⟩

theorem decodeInto_strings (field : String) (xs : List String) :
    decodeInto field [] (xs.map Json.str) = .ok xs := by
  induction xs with
  | nil => rfl
  | cons x xs ih =>
    have ht : ([] : List String).tail = [] := rfl
    simp only [List.map_cons, decodeInto, decodeString, ht, ih]

theorem decodeStrings_encodeStrings (field : String) (xs : Slice String) :
    decodeStrings field none [] (encodeStrings xs) = .ok (xs, []) := by
  cases xs with
  | none => rfl
  | some xs =>
    cases xs with
    | nil => rfl
    | cons x xs =>
      have h := decodeInto_strings field (x :: xs)
      simp only [List.map_cons] at h
      simp only [encodeStrings, List.map_cons, decodeStrings, Slice.elems, List.nil_append, h,
        List.drop_nil]

theorem decodeWatchItem_encodeWatchItem (w : WatchItem) :
    decodeWatchItem (encodeWatchItem w) = .ok w.dropEmptyUsers := by
  have ht : fieldOf "type" = some .type := by decide
  have hk : fieldOf "keywords" = some .keywords := by decide
  have hu : fieldOf "users" = some .users := by decide
  obtain ⟨t, ks, us⟩ := w
  by_cases hempty : (Slice.elems us).isEmpty = true
  · simp [encodeWatchItem, decodeWatchItem, decodeMembers, decodeMember, ht, hk,
      decodeString, decodeStrings_encodeStrings, WatchItem.dropEmptyUsers, hempty]
  · simp [encodeWatchItem, decodeWatchItem, decodeMembers, decodeMember, ht, hk, hu,
      decodeString, decodeStrings_encodeStrings, WatchItem.dropEmptyUsers, hempty]

theorem decodeAll_encodeWatchItem (ws : List WatchItem) :
    decodeAll decodeWatchItem (ws.map encodeWatchItem) =
      .ok (ws.map WatchItem.dropEmptyUsers) := by
  induction ws with
  | nil => rfl
  | cons w ws ih => simp [decodeAll, decodeWatchItem_encodeWatchItem, ih]

theorem decodeWatchlist_encodeWatchlist (list : Slice WatchItem) :
    decodeWatchlist (encodeWatchlist list) =
      .ok (list.map (List.map WatchItem.dropEmptyUsers)) := by
  cases list with
  | none => rfl
  | some ws => simp [encodeWatchlist, decodeWatchlist, decodeAll_encodeWatchItem]

theorem encodeWatchItem_dropEmptyUsers (w : WatchItem) :
    encodeWatchItem w.dropEmptyUsers = encodeWatchItem w := by
  obtain ⟨t, ks, us⟩ := w
  have hn : (Slice.elems (none : Slice String)).isEmpty = true := rfl
  by_cases hempty : (Slice.elems us).isEmpty = true
  · simp only [WatchItem.dropEmptyUsers, hempty, if_true, encodeWatchItem, hn]
  · simp only [WatchItem.dropEmptyUsers, hempty, if_false, Bool.false_eq_true]

theorem encodeWatchlist_dropEmptyUsers (list : Slice WatchItem) :
    encodeWatchlist (list.map (List.map WatchItem.dropEmptyUsers)) = encodeWatchlist list := by
  cases list with
  | none => rfl
  | some ws =>
    simp only [Option.map, encodeWatchlist, List.map_map]
    congr 1
    apply List.map_congr_left
    intro w _
    exact encodeWatchItem_dropEmptyUsers w

/-- C8. A POST whose body is the encoding of a watch list is answered with 200, and the
GET that follows returns that same encoding, whatever list was held before. The list
held in between has the items of the posted one, in the same order, each with the same
type, the same keywords and the same users. -/
theorem post_then_get_round_trip (prior list : Slice WatchItem) :
    (postWatchlist (.ok (encodeWatchlist list)) prior).1 = ⟨200, none, .none⟩ ∧
    getWatchlist (postWatchlist (.ok (encodeWatchlist list)) prior).2 =
      ⟨200, some "application/json", .json (encodeWatchlist list)⟩ ∧
    (postWatchlist (.ok (encodeWatchlist list)) prior).2.isSome = list.isSome ∧
    (postWatchlist (.ok (encodeWatchlist list)) prior).2.elems.map
        (fun w => (w.type, w.keywords, w.users.elems)) =
      list.elems.map (fun w => (w.type, w.keywords, w.users.elems)) := by
  have hpost : postWatchlist (.ok (encodeWatchlist list)) prior =
      (⟨200, none, .none⟩, list.map (List.map WatchItem.dropEmptyUsers)) := by
    simp only [postWatchlist, decodeBody, decodeWatchlist_encodeWatchlist]
  rw [hpost]
  refine ⟨rfl, ?_, ?_, ?_⟩
  · simp only [getWatchlist, encodeWatchlist_dropEmptyUsers]
  · cases list <;> rfl
  · cases list with
    | none => rfl
    | some ws =>
      show (ws.map WatchItem.dropEmptyUsers).map
          (fun w => (w.type, w.keywords, w.users.elems)) =
        ws.map (fun w => (w.type, w.keywords, w.users.elems))
      rw [List.map_map]
      apply List.map_congr_left
      intro w _
      obtain ⟨t, ks, us⟩ := w
      by_cases hempty : (Slice.elems us).isEmpty = true
      · have hnil : Slice.elems us = [] := List.isEmpty_iff.1 hempty
        simp only [Function.comp, WatchItem.dropEmptyUsers, hempty, if_true]
        rw [hnil]
        rfl
      · simp only [Function.comp, WatchItem.dropEmptyUsers, hempty, if_false,
          Bool.false_eq_true]

/-- C8, witness: the scenario of the specification, posted over a held list; the GET
returns the very body that was posted. -/
theorem post_then_get_round_trip_witness :
    encodeWatchlist (some [⟨"B", some ["z"], none⟩]) = scenarioBody ∧
    (postWatchlist (.ok scenarioBody) sampleWatchlist).1 = ⟨200, none, .none⟩ ∧
    getWatchlist (postWatchlist (.ok scenarioBody) sampleWatchlist).2 =
      ⟨200, some "application/json", .json scenarioBody⟩ :=
  ⟨rfl, (post_then_get_round_trip sampleWatchlist (some [⟨"B", some ["z"], none⟩])).1,
    (post_then_get_round_trip sampleWatchlist (some [⟨"B", some ["z"], none⟩])).2.1⟩

/-! ## Snapshots of the registry -/

theorem registry_run_append (r : Registry) (xs ys : List Step) :
    r.run (xs ++ ys) = (r.run xs).run ys := by
  simp [Registry.run, List.foldl_append]

theorem registry_run_watchlist (r : Registry) (steps : List Step) :
    (r.run steps).watchlist =
      ((steps.filterMap Step.replaced).getLast?).getD r.watchlist := by
  induction steps generalizing r with
  | nil => rfl
  | cons s steps ih =>
    show ((r.step s).run steps).watchlist = _
    rw [ih (r.step s)]
    cases s with
    | snapshot => rfl
    | replace newList =>
      show _ = (((newList :: steps.filterMap Step.replaced).getLast?).getD r.watchlist)
      cases h : (steps.filterMap Step.replaced).getLast? with
      | none =>
        have hnil : steps.filterMap Step.replaced = [] := List.getLast?_eq_none_iff.1 h
        rw [hnil]
        rfl
      | some l =>
        have hne : steps.filterMap Step.replaced ≠ [] := by
          intro e
          rw [e] at h
          cases h
        obtain ⟨y, ys, hys⟩ := List.exists_cons_of_ne_nil hne
        rw [hys, List.getLast?_cons_cons, ← hys, h]
        rfl

theorem registry_run_replaces_localList (r : Registry) (later : List Step)
    (h : ∀ s ∈ later, s.isReplace = true) :
    (r.run later).localList = r.localList := by
  induction later generalizing r with
  | nil => rfl
  | cons s later ih =>
    show ((r.step s).run later).localList = _
    rw [ih (r.step s) (fun t ht => h t (List.mem_cons_of_mem _ ht))]
    cases s with
    | replace newList => rfl
    | snapshot => exact absurd (h .snapshot (List.mem_cons_self _ _)) (by simp [Step.isReplace])

/-- C10. After any sequence of critical sections from the start of the process, the held
watch list is the argument of the most recent replace, or the initial empty list; a
snapshot taken then has the elements of that list; and the replaces that come after the
snapshot leave the list the scheduler iterates over as it was taken. -/
theorem snapshot_is_last_committed (steps later : List Step)
    (hlater : ∀ s ∈ later, s.isReplace = true) :
    (Registry.init.run steps).watchlist = lastReplaced steps ∧
    (Registry.init.run (steps ++ [.snapshot])).localList = (lastReplaced steps).elems ∧
    ((Registry.init.run (steps ++ [.snapshot])).run later).localList =
      (lastReplaced steps).elems := by
  have hw : (Registry.init.run steps).watchlist = lastReplaced steps :=
    registry_run_watchlist Registry.init steps
  have hs : (Registry.init.run (steps ++ [.snapshot])).localList =
      (lastReplaced steps).elems := by
    rw [registry_run_append]
    show snapshot (Registry.init.run steps).watchlist = _
    rw [hw]
    rfl
  exact ⟨hw, hs, (registry_run_replaces_localList _ later hlater).trans hs⟩

/-- C10, witness: a replace, a snapshot, a replace by the nil list, then the snapshot,
followed by one more replace. -/
theorem snapshot_is_last_committed_witness :
    (∀ s ∈ [Step.replace (some [])], s.isReplace = true) ∧
    lastReplaced [.replace sampleWatchlist, .snapshot, .replace none] = none ∧
    ((Registry.init.run ([.replace sampleWatchlist, .snapshot, .replace none] ++
        [.snapshot])).run [.replace (some [])]).localList =
      (lastReplaced [.replace sampleWatchlist, .snapshot, .replace none]).elems :=
  ⟨by simp [Step.isReplace], rfl,
    (snapshot_is_last_committed [.replace sampleWatchlist, .snapshot, .replace none]
      [.replace (some [])] (by simp [Step.isReplace])).2.2⟩

end NewsAgent
